import Mathlib

/-!
Verification of the CellPick selection core.

The repository's algorithmic core (`cellpick/app/algorithms.py`: the geometry
primitives, the Gonzalez k-center selector, its round-robin per-group variant
and the minimum-pairwise-distance diagnostic) is imported by
`cellpick/app/components.py` but its source file is not part of the source
tree given here; those functions are modelled from the specification
(sections 4.1 to 4.5), as marked on each definition. The callers
(`AppStateManager.select_shapes`, `filter_by_ar`, `set_scores`) are embedded
from `cellpick/app/components.py` directly.

Distances are embedded by their squares, as exact rationals: the Euclidean
distance of the code is the square root of the value computed here, and since
the square root is strictly monotone on nonnegative reals, every comparison,
minimum, maximum and zero test performed by the algorithms is preserved by
this representation. The value `⊤` of `WithTop ℚ` embeds the float
`+infinity` sentinel. The square of the epsilon `1e-9` of the spec is
`1e-18`.
-/

namespace CellPick

/-- A 2D point, as in the spec's data model: a pair of coordinates. -/
abbrev Point : Type := ℚ × ℚ

/-- A polygon: an ordered list of vertices. -/
abbrev Polygon : Type := List Point

/-- Squared distances, with `⊤` playing the float `inf` of the code. -/
abbrev DistSq : Type := WithTop ℚ

/-- Modelled from the spec (4.1), `point_segment_distance`: squared Euclidean
distance from `p` to the segment from `a` to `b`, by the
projection-and-clamp formula, falling back to point-to-point distance when
the segment is degenerate (`a = b`, zero squared length). -/
def pointSegmentDistSq (p a b : Point) : ℚ :=
  let dx := b.1 - a.1
  let dy := b.2 - a.2
  let len2 := dx * dx + dy * dy
  if len2 = 0 then (p.1 - a.1) * (p.1 - a.1) + (p.2 - a.2) * (p.2 - a.2)
  else
    let t := ((p.1 - a.1) * dx + (p.2 - a.2) * dy) / len2
    let tc := if t ≤ 0 then 0 else if 1 ≤ t then 1 else t
    (p.1 - (a.1 + tc * dx)) * (p.1 - (a.1 + tc * dx)) +
      (p.2 - (a.2 + tc * dy)) * (p.2 - (a.2 + tc * dy))

/-- The edges of a polygon: consecutive vertex pairs, wrapping last-to-first
(spec 4.1). -/
def edges : Polygon → List (Point × Point)
  | [] => []
  | p :: ps => List.zip (p :: ps) (ps ++ [p])

/-- Minimum of a list of extended values; `⊤` on the empty list. -/
def listMin (l : List DistSq) : DistSq := l.foldr min ⊤

/-- Modelled from the spec (4.1), `point_polygon_distance`: minimum over all
edges of the squared point-segment distance (`⊤` for a polygon with no
vertices, whose behavior the spec leaves undefined). -/
def pointPolygonDistSq (p : Point) (poly : Polygon) : DistSq :=
  listMin ((edges poly).map fun e => ((pointSegmentDistSq p e.1 e.2 : ℚ) : DistSq))

/-- Squared epsilon of the spec's `1e-9` early-exit threshold. -/
def epsSq : ℚ := 1 / 1000000000000000000

/-- Symmetrized vertex-to-boundary minimum before the epsilon snap. -/
def polygonPolygonDistSqRaw (A B : Polygon) : DistSq :=
  min (listMin (A.map fun v => pointPolygonDistSq v B))
    (listMin (B.map fun v => pointPolygonDistSq v A))

/-- Modelled from the spec (4.1), `polygon_polygon_distance`: minimum over
all vertices of either polygon of the squared distance to the other
polygon's boundary, returning `0` when a value below epsilon is found. -/
def polygonPolygonDistSq (A B : Polygon) : DistSq :=
  let r := polygonPolygonDistSqRaw A B
  if r < ((epsSq : ℚ) : DistSq) then 0 else r

/-- Distance oracle over a candidate list of polygons, indexed. -/
def polyDist (polys : List Polygon) (i j : ℕ) : DistSq :=
  polygonPolygonDistSq (polys.getD i []) (polys.getD j [])

/-- Modelled from the spec (4.2), `min_dist_to_set`: minimum distance from
candidate `c` to the already selected indices; `⊤` (infinity) when none are
selected yet. -/
def minDistToSet (dist : ℕ → ℕ → DistSq) (c : ℕ) (sel : List ℕ) : DistSq :=
  listMin (sel.map (dist c))

/-- First index attaining the maximum of `f` on the list (ties go to the
earliest element, hence to the lowest index on a sorted list). -/
def argmaxIdx (f : ℕ → DistSq) : List ℕ → Option ℕ
  | [] => none
  | i :: is =>
    match argmaxIdx f is with
    | none => some i
    | some j => if f i < f j then some j else some i

/-- Indices below `n` not yet chosen, in increasing order. -/
def unchosen (n : ℕ) (chosen : List ℕ) : List ℕ :=
  (List.range n).filter fun i => decide (i ∉ chosen)

/-- Modelled from the spec (4.3 step 4): the next greedy pick, the unchosen
candidate maximizing the minimum distance to the chosen set, lowest index on
ties. -/
def gonzalezNext (dist : ℕ → ℕ → DistSq) (n : ℕ) (chosen : List ℕ) : Option ℕ :=
  argmaxIdx (fun c => minDistToSet dist c chosen) (unchosen n chosen)

/-- Greedy selection loop: perform `m` farthest-point steps. -/
def gonzalezLoop (dist : ℕ → ℕ → DistSq) (n : ℕ) : ℕ → List ℕ → List ℕ
  | 0, chosen => chosen
  | m + 1, chosen =>
    match gonzalezNext dist n chosen with
    | none => chosen
    | some j => gonzalezLoop dist n m (chosen ++ [j])

/-- Modelled from the spec (4.3), `select_k_center`: all indices when
`k >= n` (undersupply), empty for `k <= 0`, else seed index `0` and `k - 1`
farthest-point steps. The algorithm core is shared by the point-based and
polygon-based entry points through the `dist` parameter. -/
def selectKCenter (dist : ℕ → ℕ → DistSq) (n : ℕ) (k : ℤ) : List ℕ :=
  if (n : ℤ) ≤ k then List.range n
  else if k ≤ 0 then []
  else gonzalezLoop dist n (k.toNat - 1) [0]

/-- Modelled from the spec (4.3), `polygon_gonzalez`: the polygon-based entry
point of the selector. -/
def polygonGonzalez (polys : List Polygon) (k : ℤ) : List ℕ :=
  selectKCenter (polyDist polys) polys.length k

/-- The spec's error taxonomy (7): the selector's only failure condition. -/
inductive SelError : Type where
  | invalidInput : SelError
deriving DecidableEq

/-- Modelled from the spec (4.3 failure semantics): the selector fails with
`InvalidInput` when the candidate list is empty and `k > 0`, and otherwise
returns the greedy selection. -/
def polygonGonzalezE (polys : List Polygon) (k : ℤ) : Except SelError (List ℕ) :=
  if polys.length = 0 ∧ 0 < k then Except.error SelError.invalidInput
  else Except.ok (polygonGonzalez polys k)

/-- From `AppStateManager.select_shapes` (components.py lines 537-550, the
whole-union path): when the number of active candidates is at most `k`, all
of them are taken and the undersupply warning dialog is shown; otherwise
`polygon_gonzalez` picks `k` of them. The boolean records whether the
warning was shown. Indices are positions in the candidate list. -/
def selectShapes (polys : List Polygon) (k : ℤ) : List ℕ × Bool :=
  if (polys.length : ℤ) ≤ k then (List.range polys.length, true)
  else (polygonGonzalez polys k, false)

/-- Modelled from the spec (4.4), `polygon_round_robin_gonzalez`: per-group
outputs are computed as if `select_k_center(group_i, k)` were called
independently for each group, in each group's own index space. -/
def polygonRoundRobinGonzalez (groups : List (List Polygon)) (k : ℤ) : List (List ℕ) :=
  groups.map fun g => polygonGonzalez g k

/-- Per-group selection with the per-group undersupply report of spec 4.4,
as checked by the caller (components.py line 573): a group is undersupplied
exactly when its result has fewer than `k` indices. -/
def selectKPerGroup (groups : List (List Polygon)) (k : ℤ) : List (List ℕ × Bool) :=
  groups.map fun g =>
    (polygonGonzalez g k, decide (((polygonGonzalez g k).length : ℤ) < k))

/-- Squared distances of all unordered pairs of the list, each pair once. -/
def pairwiseDists : List Polygon → List DistSq
  | [] => []
  | p :: ps => ps.map (polygonPolygonDistSq p) ++ pairwiseDists ps

/-- Modelled from the spec (4.5), `polygon_mindist` alias
`min_pairwise_distance`: minimum over all unordered pairs, `⊤` (infinity)
when fewer than two polygons are given. -/
def polygonMindist (polys : List Polygon) : DistSq :=
  listMin (pairwiseDists polys)

/-- From `Polygon.centroid` (components.py lines 109-123): the vertex mean,
or the origin for a polygon without vertices. -/
def centroid (poly : Polygon) : Point :=
  if poly = [] then (0, 0)
  else ((poly.map Prod.fst).sum / (poly.length : ℚ),
        (poly.map Prod.snd).sum / (poly.length : ℚ))

/-- From `AppStateManager.filter_by_ar` (components.py lines 467-483), also
reached through `update_active_shapes`: the active shape ids become the
indices, in increasing order, of the shapes whose centroid lies inside at
least one active region, and the selected shape ids are set to the same
list. The point-in-polygon test (`QPolygonF.containsPoint` with odd-even
fill) is external Qt library code and is abstracted as the `inside`
parameter. Result: (active_shape_ids, selected_shape_ids). -/
def filterByAr (inside : Point → Polygon → Bool) (shapes : List Polygon)
    (regions : List Polygon) : List ℕ × List ℕ :=
  let active := (List.range shapes.length).filter fun i =>
    regions.any fun ar => inside (centroid (shapes.getD i [])) ar
  (active, active)

/-- From `AppStateManager.set_scores` (components.py lines 640-653), which
asserts exactly two landmarks: every shape's score becomes
`d1 / (d1 + d2 + 1e-9)` where `d1, d2` are the distances from its centroid
to the two landmark polygons. The distance `dist_to_polygon` lives in the
missing algorithms module and is abstracted as the parameter `d`, valued in
a linear ordered field standing for the code's floats (ℝ in the claims,
instantiable by ℚ for evaluation). -/
def setScores {K : Type} [LinearOrderedField K] (d : Point → Polygon → K)
    (lm1 lm2 : Polygon) (shapes : List Polygon) : List K :=
  shapes.map fun s =>
    d (centroid s) lm1 / (d (centroid s) lm1 + d (centroid s) lm2 + 1 / 1000000000)

/-- A unit square with lower-left corner at `(x, 0)`. -/
def usq (x : ℚ) : Polygon := [(x, 0), (x + 1, 0), (x + 1, 1), (x, 1)]

/-- Five unit squares at x = 0, 10, 20, 30, 40 (spec scenario 1). -/
def fiveSquares : List Polygon := [usq 0, usq 10, usq 20, usq 30, usq 40]

/-- Two unit squares, an undersupplied group (spec scenario 3, group A). -/
def twoSquares : List Polygon := [usq 0, usq 10]

/-- Ten spread unit squares (spec scenario 3, group B). -/
def tenSquares : List Polygon :=
  [usq 0, usq 10, usq 20, usq 30, usq 40, usq 50, usq 60, usq 70, usq 80, usq 90]

/-- A 10 by 10 square, used to exhibit overlap with positive reported
distance. -/
def sqA : Polygon := [(0, 0), (10, 0), (10, 10), (0, 10)]

/-- A wide flat rectangle crossing `sqA` horizontally: the two overlap, and
no vertex of either lies on the other's boundary. -/
def rectB : Polygon := [(-5, 4), (15, 4), (15, 6), (-5, 6)]

theorem listMin_nil : listMin [] = ⊤ := rfl

theorem listMin_cons (a : DistSq) (l : List DistSq) :
    listMin (a :: l) = min a (listMin l) := rfl

theorem listMin_le_of_mem {l : List DistSq} {x : DistSq} (h : x ∈ l) :
    listMin l ≤ x := by
  induction l with
  | nil => cases h
  | cons a l ih =>
    rcases List.mem_cons.mp h with rfl | h'
    · exact min_le_left _ _
    · exact le_trans (min_le_right _ _) (ih h')

theorem le_listMin {l : List DistSq} {a : DistSq} (h : ∀ x ∈ l, a ≤ x) :
    a ≤ listMin l := by
  induction l with
  | nil => exact le_top
  | cons b l ih =>
    exact le_min (h b (List.mem_cons_self b l))
      (ih fun x hx => h x (List.mem_cons_of_mem _ hx))

theorem listMin_mem {l : List DistSq} (h : l ≠ []) : listMin l ∈ l := by
  induction l with
  | nil => exact absurd rfl h
  | cons a l ih =>
    by_cases hl : l = []
    · subst hl
      rw [listMin_cons, listMin_nil, min_eq_left le_top]
      exact List.mem_cons_self a []
    · rcases min_choice a (listMin l) with h' | h'
      · rw [listMin_cons, h']
        exact List.mem_cons_self a l
      · rw [listMin_cons, h']
        exact List.mem_cons_of_mem _ (ih hl)

theorem argmaxIdx_isSome (f : ℕ → DistSq) {l : List ℕ} (h : l ≠ []) :
    ∃ j, argmaxIdx f l = some j := by
  cases l with
  | nil => exact absurd rfl h
  | cons i is =>
    cases h' : argmaxIdx f is with
    | none => exact ⟨i, by simp [argmaxIdx, h']⟩
    | some j =>
      by_cases hf : f i < f j
      · exact ⟨j, by simp [argmaxIdx, h', hf]⟩
      · exact ⟨i, by simp [argmaxIdx, h', hf]⟩

theorem argmaxIdx_mem {f : ℕ → DistSq} :
    ∀ {l : List ℕ} {j : ℕ}, argmaxIdx f l = some j → j ∈ l := by
  intro l
  induction l with
  | nil => intro j h; simp [argmaxIdx] at h
  | cons i is ih =>
    intro j h
    simp only [argmaxIdx] at h
    cases h' : argmaxIdx f is with
    | none =>
      rw [h'] at h
      simp only [Option.some.injEq] at h
      exact h ▸ List.mem_cons_self i is
    | some j₀ =>
      rw [h'] at h
      by_cases hf : f i < f j₀
      · simp only [if_pos hf, Option.some.injEq] at h
        exact h ▸ List.mem_cons_of_mem _ (ih h')
      · simp only [if_neg hf, Option.some.injEq] at h
        exact h ▸ List.mem_cons_self i is

theorem argmaxIdx_le {f : ℕ → DistSq} :
    ∀ {l : List ℕ} {j : ℕ}, argmaxIdx f l = some j → ∀ i ∈ l, f i ≤ f j := by
  intro l
  induction l with
  | nil => intro j h; simp [argmaxIdx] at h
  | cons i is ih =>
    intro j h m hm
    simp only [argmaxIdx] at h
    cases h' : argmaxIdx f is with
    | none =>
      rw [h'] at h
      simp only [Option.some.injEq] at h
      subst h
      rcases List.mem_cons.mp hm with rfl | hm'
      · exact le_refl _
      · exact absurd (List.ne_nil_of_mem hm') (by
          intro hne
          obtain ⟨j', hj'⟩ := argmaxIdx_isSome f hne
          rw [h'] at hj'
          cases hj')
    | some j₀ =>
      rw [h'] at h
      by_cases hf : f i < f j₀
      · simp only [if_pos hf, Option.some.injEq] at h
        subst h
        rcases List.mem_cons.mp hm with rfl | hm'
        · exact le_of_lt hf
        · exact ih h' m hm'
      · simp only [if_neg hf, Option.some.injEq] at h
        subst h
        rcases List.mem_cons.mp hm with rfl | hm'
        · exact le_refl _
        · exact le_trans (ih h' m hm') (le_of_not_lt hf)

theorem argmaxIdx_tiebreak {f : ℕ → DistSq} :
    ∀ {l : List ℕ} {j : ℕ}, argmaxIdx f l = some j → l.Pairwise (· < ·) →
      ∀ i ∈ l, f i = f j → j ≤ i := by
  intro l
  induction l with
  | nil => intro j h; simp [argmaxIdx] at h
  | cons i is ih =>
    intro j h hp m hm hfm
    obtain ⟨hlt, hp'⟩ := List.pairwise_cons.mp hp
    simp only [argmaxIdx] at h
    cases h' : argmaxIdx f is with
    | none =>
      rw [h'] at h
      simp only [Option.some.injEq] at h
      subst h
      rcases List.mem_cons.mp hm with rfl | hm'
      · exact le_refl _
      · exact le_of_lt (hlt m hm')
    | some j₀ =>
      rw [h'] at h
      by_cases hf : f i < f j₀
      · simp only [if_pos hf, Option.some.injEq] at h
        subst h
        rcases List.mem_cons.mp hm with rfl | hm'
        · exact absurd hfm (ne_of_lt hf)
        · exact ih h' hp' m hm' hfm
      · simp only [if_neg hf, Option.some.injEq] at h
        subst h
        rcases List.mem_cons.mp hm with rfl | hm'
        · exact le_refl _
        · exact le_of_lt (hlt m hm')

theorem mem_unchosen {n : ℕ} {chosen : List ℕ} {i : ℕ} :
    i ∈ unchosen n chosen ↔ i < n ∧ i ∉ chosen := by
  simp [unchosen, List.mem_filter, List.mem_range]

theorem unchosen_pairwise (n : ℕ) (chosen : List ℕ) :
    (unchosen n chosen).Pairwise (· < ·) :=
  (List.pairwise_lt_range n).filter _

theorem unchosen_ne_nil {n : ℕ} {chosen : List ℕ} (_hnd : chosen.Nodup)
    (hlen : chosen.length < n) : unchosen n chosen ≠ [] := by
  intro h
  have hall : ∀ i, i < n → i ∈ chosen := by
    intro i hi
    by_contra hmem
    have hm : i ∈ unchosen n chosen := mem_unchosen.mpr ⟨hi, hmem⟩
    rw [h] at hm
    cases hm
  have hsubset : List.range n ⊆ chosen := fun i hi =>
    hall i (List.mem_range.mp hi)
  have hle := (List.subperm_of_subset (List.nodup_range n) hsubset).length_le
  rw [List.length_range] at hle
  omega

theorem gonzalezNext_eq (dist : ℕ → ℕ → DistSq) (n : ℕ) (chosen : List ℕ) :
    gonzalezNext dist n chosen =
      argmaxIdx (fun c => minDistToSet dist c chosen) (unchosen n chosen) := rfl

theorem gonzalezNext_isSome (dist : ℕ → ℕ → DistSq) (n : ℕ) {chosen : List ℕ}
    (hnd : chosen.Nodup) (hlen : chosen.length < n) :
    ∃ j, gonzalezNext dist n chosen = some j :=
  argmaxIdx_isSome _ (unchosen_ne_nil hnd hlen)

theorem gonzalezNext_mem {dist : ℕ → ℕ → DistSq} {n : ℕ} {chosen : List ℕ}
    {j : ℕ} (h : gonzalezNext dist n chosen = some j) : j < n ∧ j ∉ chosen :=
  mem_unchosen.mp (argmaxIdx_mem (gonzalezNext_eq dist n chosen ▸ h))

theorem gonzalezLoop_prefix (dist : ℕ → ℕ → DistSq) (n : ℕ) :
    ∀ (m : ℕ) (ch : List ℕ), ∃ t, gonzalezLoop dist n m ch = ch ++ t := by
  intro m
  induction m with
  | zero => intro ch; exact ⟨[], by simp [gonzalezLoop]⟩
  | succ m ih =>
    intro ch
    cases h : gonzalezNext dist n ch with
    | none => exact ⟨[], by simp [gonzalezLoop, h]⟩
    | some j =>
      obtain ⟨t, ht⟩ := ih (ch ++ [j])
      exact ⟨j :: t, by simp [gonzalezLoop, h, ht]⟩

theorem gonzalezLoop_invariant (dist : ℕ → ℕ → DistSq) (n : ℕ) :
    ∀ (m : ℕ) (ch : List ℕ), ch.Nodup → (∀ i ∈ ch, i < n) →
      (gonzalezLoop dist n m ch).Nodup ∧
        ∀ i ∈ gonzalezLoop dist n m ch, i < n := by
  intro m
  induction m with
  | zero => intro ch h1 h2; exact ⟨h1, h2⟩
  | succ m ih =>
    intro ch h1 h2
    cases h : gonzalezNext dist n ch with
    | none => simpa [gonzalezLoop, h] using ⟨h1, h2⟩
    | some j =>
      obtain ⟨hjn, hjch⟩ := gonzalezNext_mem h
      have h1' : (ch ++ [j]).Nodup := by
        simp [List.nodup_append, h1, hjch]
      have h2' : ∀ i ∈ ch ++ [j], i < n := by
        intro i hi
        rcases List.mem_append.mp hi with hi' | hi'
        · exact h2 i hi'
        · rw [List.mem_singleton.mp hi']; exact hjn
      simpa [gonzalezLoop, h] using ih (ch ++ [j]) h1' h2'

theorem gonzalezLoop_length (dist : ℕ → ℕ → DistSq) (n : ℕ) :
    ∀ (m : ℕ) (ch : List ℕ), ch.Nodup → (∀ i ∈ ch, i < n) →
      ch.length + m ≤ n →
      (gonzalezLoop dist n m ch).length = ch.length + m := by
  intro m
  induction m with
  | zero => intro ch _ _ _; simp [gonzalezLoop]
  | succ m ih =>
    intro ch h1 h2 h3
    obtain ⟨j, hj⟩ := gonzalezNext_isSome dist n h1 (by omega)
    obtain ⟨hjn, hjch⟩ := gonzalezNext_mem hj
    have h1' : (ch ++ [j]).Nodup := by
      simp [List.nodup_append, h1, hjch]
    have h2' : ∀ i ∈ ch ++ [j], i < n := by
      intro i hi
      rcases List.mem_append.mp hi with hi' | hi'
      · exact h2 i hi'
      · rw [List.mem_singleton.mp hi']; exact hjn
    have := ih (ch ++ [j]) h1' h2' (by simp; omega)
    simp only [gonzalezLoop, hj, this, List.length_append, List.length_singleton]
    omega

theorem selectKCenter_oversupply (dist : ℕ → ℕ → DistSq) {n : ℕ} {k : ℤ}
    (h : (n : ℤ) ≤ k) : selectKCenter dist n k = List.range n := by
  unfold selectKCenter
  rw [if_pos h]

theorem selectKCenter_nonpos (dist : ℕ → ℕ → DistSq) {n : ℕ} {k : ℤ}
    (h : k ≤ 0) : selectKCenter dist n k = [] := by
  unfold selectKCenter
  by_cases h1 : (n : ℤ) ≤ k
  · have : n = 0 := by omega
    rw [if_pos h1, this]
    rfl
  · rw [if_neg h1, if_pos h]

theorem selectKCenter_nodup_lt (dist : ℕ → ℕ → DistSq) (n : ℕ) (k : ℤ) :
    (selectKCenter dist n k).Nodup ∧ ∀ i ∈ selectKCenter dist n k, i < n := by
  unfold selectKCenter
  by_cases h1 : (n : ℤ) ≤ k
  · rw [if_pos h1]
    exact ⟨List.nodup_range n, fun i hi => List.mem_range.mp hi⟩
  · rw [if_neg h1]
    by_cases h2 : k ≤ 0
    · rw [if_pos h2]
      simp
    · rw [if_neg h2]
      have hn : 0 < n := by omega
      exact gonzalezLoop_invariant dist n (k.toNat - 1) [0] (by simp)
        (by intro i hi; rw [List.mem_singleton.mp hi]; exact hn)

theorem selectKCenter_length (dist : ℕ → ℕ → DistSq) {n : ℕ} {k : ℤ}
    (h0 : 0 ≤ k) (hk : k ≤ (n : ℤ)) :
    (selectKCenter dist n k).length = k.toNat := by
  unfold selectKCenter
  by_cases h1 : (n : ℤ) ≤ k
  · rw [if_pos h1, List.length_range]
    omega
  · rw [if_neg h1]
    by_cases h2 : k ≤ 0
    · rw [if_pos h2]
      simp
      omega
    · rw [if_neg h2]
      have hn : 0 < n := by omega
      rw [gonzalezLoop_length dist n (k.toNat - 1) [0] (by simp)
        (by intro i hi; rw [List.mem_singleton.mp hi]; exact hn)
        (by simp; omega)]
      simp
      omega

theorem selectKCenter_head (dist : ℕ → ℕ → DistSq) {n : ℕ} {k : ℤ}
    (hn : 0 < n) (hk : 1 ≤ k) :
    (selectKCenter dist n k).head? = some 0 := by
  unfold selectKCenter
  by_cases h1 : (n : ℤ) ≤ k
  · rw [if_pos h1]
    cases n with
    | zero => omega
    | succ m => rw [List.range_succ_eq_map]; rfl
  · rw [if_neg h1, if_neg (by omega)]
    obtain ⟨t, ht⟩ := gonzalezLoop_prefix dist n (k.toNat - 1) [0]
    rw [ht]
    rfl

theorem pointSegmentDistSq_nonneg (p a b : Point) :
    0 ≤ pointSegmentDistSq p a b := by
  unfold pointSegmentDistSq
  dsimp only
  split
  · exact add_nonneg (mul_self_nonneg _) (mul_self_nonneg _)
  · exact add_nonneg (mul_self_nonneg _) (mul_self_nonneg _)

theorem pointSegmentDistSq_self (a b : Point) :
    pointSegmentDistSq a a b = 0 := by
  unfold pointSegmentDistSq
  dsimp only
  split
  · simp
  · simp

theorem edges_length (poly : Polygon) : (edges poly).length = poly.length := by
  cases poly with
  | nil => rfl
  | cons p ps => simp [edges]

theorem exists_edge_from_vertex {poly : Polygon} {v : Point} (h : v ∈ poly) :
    ∃ w, (v, w) ∈ edges poly := by
  cases poly with
  | nil => cases h
  | cons p ps =>
    obtain ⟨i, hi, hv⟩ := List.getElem_of_mem h
    have hi' : i < (edges (p :: ps)).length := by
      rw [edges_length]; exact hi
    have hi'' : i < ((ps ++ [p]) : List Point).length := by
      simp only [List.length_append, List.length_singleton]
      simpa using hi
    refine ⟨(ps ++ [p])[i], ?_⟩
    have hget : (edges (p :: ps))[i] = (v, (ps ++ [p])[i]) := by
      simp only [edges, List.getElem_zip, hv]
    rw [← hget]
    exact List.getElem_mem hi'

theorem pointPolygonDistSq_nonneg (p : Point) (poly : Polygon) :
    0 ≤ pointPolygonDistSq p poly := by
  apply le_listMin
  intro x hx
  obtain ⟨e, _, rfl⟩ := List.mem_map.mp hx
  rw [← WithTop.coe_zero, WithTop.coe_le_coe]
  exact pointSegmentDistSq_nonneg p e.1 e.2

theorem pointPolygonDistSq_vertex {v : Point} {poly : Polygon} (h : v ∈ poly) :
    pointPolygonDistSq v poly = 0 := by
  obtain ⟨w, hw⟩ := exists_edge_from_vertex h
  refine le_antisymm ?_ (pointPolygonDistSq_nonneg v poly)
  have hm : ((pointSegmentDistSq v v w : ℚ) : DistSq) ∈
      (edges poly).map fun e => ((pointSegmentDistSq v e.1 e.2 : ℚ) : DistSq) := by
    exact List.mem_map.mpr ⟨(v, w), hw, rfl⟩
  have := listMin_le_of_mem hm
  rwa [pointSegmentDistSq_self, WithTop.coe_zero] at this

theorem listMin_map_nonneg (P Q : Polygon) :
    0 ≤ listMin (P.map fun v => pointPolygonDistSq v Q) := by
  apply le_listMin
  intro x hx
  obtain ⟨v, _, rfl⟩ := List.mem_map.mp hx
  exact pointPolygonDistSq_nonneg v Q

theorem polygonPolygonDistSqRaw_nonneg (A B : Polygon) :
    0 ≤ polygonPolygonDistSqRaw A B :=
  le_min (listMin_map_nonneg A B) (listMin_map_nonneg B A)

theorem polygonPolygonDistSq_nonneg (A B : Polygon) :
    0 ≤ polygonPolygonDistSq A B := by
  unfold polygonPolygonDistSq
  dsimp only
  split
  · exact le_refl 0
  · exact polygonPolygonDistSqRaw_nonneg A B

theorem polygonPolygonDistSqRaw_comm (A B : Polygon) :
    polygonPolygonDistSqRaw A B = polygonPolygonDistSqRaw B A := by
  unfold polygonPolygonDistSqRaw
  exact min_comm _ _

theorem polygonPolygonDistSq_comm (A B : Polygon) :
    polygonPolygonDistSq A B = polygonPolygonDistSq B A := by
  unfold polygonPolygonDistSq
  rw [polygonPolygonDistSqRaw_comm]

theorem polygonPolygonDistSq_shared_vertex {A B : Polygon} {v : Point}
    (hA : v ∈ A) (hB : v ∈ B) : polygonPolygonDistSq A B = 0 := by
  have h1 : pointPolygonDistSq v B = 0 := pointPolygonDistSq_vertex hB
  have h2 : listMin (A.map fun u => pointPolygonDistSq u B) ≤ 0 := by
    have hmem : pointPolygonDistSq v B ∈ A.map fun u => pointPolygonDistSq u B :=
      List.mem_map.mpr ⟨v, hA, rfl⟩
    have := listMin_le_of_mem hmem
    rwa [h1] at this
  have hraw : polygonPolygonDistSqRaw A B = 0 :=
    le_antisymm (le_trans (min_le_left _ _) h2) (polygonPolygonDistSqRaw_nonneg A B)
  unfold polygonPolygonDistSq
  dsimp only
  rw [hraw, if_pos]
  rw [← WithTop.coe_zero, WithTop.coe_lt_coe]
  norm_num [epsSq]

theorem mem_pairwiseDists :
    ∀ {polys : List Polygon} {x : DistSq},
      x ∈ pairwiseDists polys ↔ ∃ i j, i < j ∧ j < polys.length ∧
        x = polygonPolygonDistSq (polys.getD i []) (polys.getD j []) := by
  intro polys
  induction polys with
  | nil =>
    intro x
    simp [pairwiseDists]
  | cons p ps ih =>
    intro x
    simp only [pairwiseDists, List.mem_append, List.mem_map, ih]
    constructor
    · rintro (⟨q, hq, rfl⟩ | ⟨i, j, hij, hj, rfl⟩)
      · obtain ⟨j, hj, hq⟩ := List.getElem_of_mem hq
        refine ⟨0, j + 1, by omega, by simp [Nat.succ_lt_succ hj], ?_⟩
        have : (p :: ps).getD (j + 1) [] = ps.getD j [] := rfl
        rw [this, List.getD_eq_getElem ps [] hj, hq]
        rfl
      · refine ⟨i + 1, j + 1, by omega, by simpa using Nat.succ_lt_succ hj, ?_⟩
        rfl
    · rintro ⟨i, j, hij, hj, rfl⟩
      cases i with
      | zero =>
        left
        cases j with
        | zero => omega
        | succ j' =>
          have hj' : j' < ps.length := by simpa using hj
          refine ⟨ps[j'], List.getElem_mem hj', ?_⟩
          have h1 : (p :: ps).getD 0 [] = p := rfl
          have h2 : (p :: ps).getD (j' + 1) [] = ps.getD j' [] := rfl
          rw [h1, h2, List.getD_eq_getElem ps [] hj']
      | succ i' =>
        right
        cases j with
        | zero => omega
        | succ j' =>
          exact ⟨i', j', by omega, by simpa using hj, rfl⟩

theorem pairwiseDists_short :
    ∀ {polys : List Polygon}, polys.length < 2 → pairwiseDists polys = [] := by
  intro polys h
  cases polys with
  | nil => rfl
  | cons p ps =>
    cases ps with
    | nil => rfl
    | cons q qs => exact absurd h (by simp)

set_option maxRecDepth 4000000

/-- C1: in `select_k_center`, every selection step after the seed chooses the
not-yet-chosen candidate whose minimum (squared) distance to the already
chosen set is maximal, breaking ties by lowest index; and on five unit
squares placed at x = 0, 10, 20, 30, 40 with `k = 3` the polygon selector
returns exactly `[0, 4, 2]` in that selection order. -/
theorem claim_C1 :
    (∀ (dist : ℕ → ℕ → DistSq) (n : ℕ) (chosen : List ℕ),
        unchosen n chosen ≠ [] →
        ∃ j, gonzalezNext dist n chosen = some j ∧ j < n ∧ j ∉ chosen ∧
          (∀ i, i < n → i ∉ chosen →
            minDistToSet dist i chosen ≤ minDistToSet dist j chosen) ∧
          (∀ i, i < n → i ∉ chosen →
            minDistToSet dist i chosen = minDistToSet dist j chosen → j ≤ i)) ∧
    polygonGonzalez fiveSquares 3 = [0, 4, 2] := by
  constructor
  · intro dist n chosen hne
    obtain ⟨j, hj⟩ :=
      argmaxIdx_isSome (fun c => minDistToSet dist c chosen) hne
    have hjm := mem_unchosen.mp (argmaxIdx_mem hj)
    refine ⟨j, hj, hjm.1, hjm.2, ?_, ?_⟩
    · intro i hin hich
      exact argmaxIdx_le hj i (mem_unchosen.mpr ⟨hin, hich⟩)
    · intro i hin hich heq
      exact argmaxIdx_tiebreak hj (unchosen_pairwise n chosen) i
        (mem_unchosen.mpr ⟨hin, hich⟩) heq
  · with_unfolding_all decide

/-- Witness for C1: on the five squares with `chosen = [0]`, the greedy step
exists and picks an in-range, unchosen, distance-maximal index with the
lowest-index tie-break. -/
theorem claim_C1_witness :
    unchosen 5 [0] ≠ [] ∧
    (∃ j, gonzalezNext (polyDist fiveSquares) 5 [0] = some j ∧ j < 5 ∧
      j ∉ [0] ∧
      (∀ i, i < 5 → i ∉ [0] →
        minDistToSet (polyDist fiveSquares) i [0] ≤
          minDistToSet (polyDist fiveSquares) j [0]) ∧
      (∀ i, i < 5 → i ∉ [0] →
        minDistToSet (polyDist fiveSquares) i [0] =
          minDistToSet (polyDist fiveSquares) j [0] → j ≤ i)) :=
  ⟨by decide, claim_C1.1 (polyDist fiveSquares) 5 [0] (by decide)⟩

/-- C2 (amended): for every `0 <= k <= n` the selector returns exactly `k`
indices and for `k > n` it returns all `n` indices in input order, but the
undersupply warning of `select_shapes` is shown if and only if `k >= n`
(the caller compares with `<=`, so the warning also fires at `k = n`). -/
theorem claim_C2 :
    (∀ (dist : ℕ → ℕ → DistSq) (n : ℕ) (k : ℤ), 0 ≤ k → k ≤ (n : ℤ) →
        (selectKCenter dist n k).length = k.toNat) ∧
    (∀ (dist : ℕ → ℕ → DistSq) (n : ℕ) (k : ℤ), (n : ℤ) < k →
        selectKCenter dist n k = List.range n) ∧
    (∀ (polys : List Polygon) (k : ℤ),
        (selectShapes polys k).2 = true ↔ (polys.length : ℤ) ≤ k) := by
  refine ⟨fun dist n k h0 hk => selectKCenter_length dist h0 hk,
    fun dist n k h => selectKCenter_oversupply dist (le_of_lt h), ?_⟩
  intro polys k
  unfold selectShapes
  by_cases h : (polys.length : ℤ) ≤ k
  · simp [h]
  · simp [h]

/-- Witness for C2: concrete counts at `n = 5`. -/
theorem claim_C2_witness :
    (selectKCenter (polyDist fiveSquares) 5 3).length = (3 : ℤ).toNat ∧
    selectKCenter (polyDist fiveSquares) 5 7 = List.range 5 :=
  ⟨claim_C2.1 (polyDist fiveSquares) 5 3 (by decide) (by decide),
   claim_C2.2.1 (polyDist fiveSquares) 5 7 (by decide)⟩

/-- Counterexample to C2 as stated: with one candidate triangle and
`k = 1 = n`, the caller's undersupply warning is shown even though `k` does
not strictly exceed `n`. -/
theorem claim_C2_counterexample :
    (selectShapes [[(0, 0), (1, 0), (0, 1)]] 1).2 = true ∧
    (((([[(0, 0), (1, 0), (0, 1)]] : List Polygon).length : ℤ) < 1) = False) := by
  constructor
  · decide
  · simp

/-- C3: the selector fails with `InvalidInput` if and only if the candidate
list is empty and `k > 0`; on a non-empty list it never fails; and for
`k <= 0` it returns the empty selection. -/
theorem claim_C3 :
    ∀ (polys : List Polygon) (k : ℤ),
      (polygonGonzalezE polys k = Except.error SelError.invalidInput ↔
        polys = [] ∧ 0 < k) ∧
      (polys ≠ [] →
        polygonGonzalezE polys k = Except.ok (polygonGonzalez polys k)) ∧
      (k ≤ 0 → polygonGonzalezE polys k = Except.ok []) := by
  intro polys k
  refine ⟨?_, ?_, ?_⟩
  · unfold polygonGonzalezE
    by_cases h : polys.length = 0 ∧ 0 < k
    · rw [if_pos h]
      simp only [true_iff]
      exact ⟨List.length_eq_zero.mp h.1, h.2⟩
    · rw [if_neg h]
      constructor
      · intro he
        cases he
      · intro ⟨h1, h2⟩
        exact absurd ⟨by rw [h1]; rfl, h2⟩ h
  · intro hne
    unfold polygonGonzalezE
    rw [if_neg]
    intro ⟨h1, _⟩
    exact hne (List.length_eq_zero.mp h1)
  · intro hk
    unfold polygonGonzalezE
    rw [if_neg (by intro ⟨_, h2⟩; omega)]
    rw [polygonGonzalez, selectKCenter_nonpos _ hk]

/-- Witness for C3: the error fires on the empty list with `k = 1`, and a
triangle with `k = -2` yields the empty selection without error. -/
theorem claim_C3_witness :
    polygonGonzalezE ([] : List Polygon) 1 = Except.error SelError.invalidInput ∧
    polygonGonzalezE [[(0, 0), (1, 0), (0, 1)]] (-2) = Except.ok [] :=
  ⟨(claim_C3 [] 1).1.mpr ⟨rfl, by decide⟩,
   (claim_C3 [[(0, 0), (1, 0), (0, 1)]] (-2)).2.2 (by decide)⟩

/-- C4: on a non-empty candidate list with `k >= 1`, index 0 is in the
selector's result and is the first selected index. -/
theorem claim_C4 :
    ∀ (dist : ℕ → ℕ → DistSq) (n : ℕ) (k : ℤ), 0 < n → 1 ≤ k →
      0 ∈ selectKCenter dist n k ∧ (selectKCenter dist n k).head? = some 0 := by
  intro dist n k hn hk
  have hh := selectKCenter_head dist hn hk
  refine ⟨?_, hh⟩
  cases hsel : selectKCenter dist n k with
  | nil => rw [hsel] at hh; cases hh
  | cons a t =>
    rw [hsel] at hh
    simp only [List.head?_cons, Option.some.injEq] at hh
    rw [hh]
    exact List.mem_cons_self 0 t

/-- Witness for C4 at the five squares with `k = 3`. -/
theorem claim_C4_witness :
    0 ∈ selectKCenter (polyDist fiveSquares) 5 3 ∧
    (selectKCenter (polyDist fiveSquares) 5 3).head? = some 0 :=
  claim_C4 (polyDist fiveSquares) 5 3 (by decide) (by decide)

/-- C5: for every distance oracle, candidate count `n` and every `k`, the
selector's returned indices are pairwise distinct and all lie in `[0, n)`;
in particular this holds for the polygon entry point. -/
theorem claim_C5 :
    ∀ (dist : ℕ → ℕ → DistSq) (n : ℕ) (k : ℤ),
      (selectKCenter dist n k).Nodup ∧ ∀ i ∈ selectKCenter dist n k, i < n :=
  fun dist n k => selectKCenter_nodup_lt dist n k

/-- Witness for C5: distinctness and in-range membership at the concrete
five-square run. -/
theorem claim_C5_witness :
    (polygonGonzalez fiveSquares 3).Nodup ∧ 0 < fiveSquares.length :=
  ⟨(claim_C5 (polyDist fiveSquares) fiveSquares.length 3).1,
   (claim_C5 (polyDist fiveSquares) fiveSquares.length 3).2 0
     (by with_unfolding_all decide)⟩

/-- C6: the round-robin multi-group selector computes, for each group, the
very list `select_k_center(group_i, k)` would return on that group alone,
with indices valid in the group's own index space; concretely, a group of 2
polygons with `k = 4` yields its 2 indices with undersupply while a group
of 10 spread polygons yields 4 indices without undersupply. -/
theorem claim_C6 :
    (∀ (groups : List (List Polygon)) (k : ℤ),
        polygonRoundRobinGonzalez groups k =
          groups.map fun g => selectKCenter (polyDist g) g.length k) ∧
    (∀ (groups : List (List Polygon)) (k : ℤ), ∀ g ∈ groups,
        ∀ i ∈ polygonGonzalez g k, i < g.length) ∧
    selectKPerGroup [twoSquares, tenSquares] 4 =
      [([0, 1], true), ([0, 9, 4, 2], false)] := by
  refine ⟨fun groups k => rfl, ?_, ?_⟩
  · intro groups k g _ i hi
    exact (selectKCenter_nodup_lt (polyDist g) g.length k).2 i hi
  · with_unfolding_all decide

/-- Witness for C6: group membership and index validity at a concrete
group. -/
theorem claim_C6_witness :
    twoSquares ∈ [twoSquares, tenSquares] ∧ 0 < twoSquares.length :=
  ⟨List.mem_cons_self _ _,
   claim_C6.2.1 [twoSquares, tenSquares] 1 twoSquares (List.mem_cons_self _ _)
     0 (by with_unfolding_all decide)⟩

/-- C7 (amended): the polygon distance is non-negative and symmetric, and
it is 0 whenever the polygons share a vertex (hence in particular when they
share an edge); but 0 is not equivalent to touching or overlapping: the
vertex-to-boundary approximation can report a positive distance for
overlapping polygons. -/
theorem claim_C7 :
    (∀ A B : Polygon, 0 ≤ polygonPolygonDistSq A B) ∧
    (∀ A B : Polygon, polygonPolygonDistSq A B = polygonPolygonDistSq B A) ∧
    (∀ (A B : Polygon) (v : Point), v ∈ A → v ∈ B →
      polygonPolygonDistSq A B = 0) :=
  ⟨polygonPolygonDistSq_nonneg, polygonPolygonDistSq_comm,
   fun _ _ _ hA hB => polygonPolygonDistSq_shared_vertex hA hB⟩

/-- Witness for C7: two unit squares sharing the vertex `(1, 0)` are at
distance 0. -/
theorem claim_C7_witness :
    ((1, 0) : Point) ∈ ([(0, 0), (1, 0), (1, 1), (0, 1)] : Polygon) ∧
    ((1, 0) : Point) ∈ ([(1, 0), (2, 0), (2, 1), (1, 1)] : Polygon) ∧
    polygonPolygonDistSq [(0, 0), (1, 0), (1, 1), (0, 1)]
      [(1, 0), (2, 0), (2, 1), (1, 1)] = 0 :=
  ⟨by decide, by decide,
   claim_C7.2.2 [(0, 0), (1, 0), (1, 1), (0, 1)]
     [(1, 0), (2, 0), (2, 1), (1, 1)] (1, 0) (by decide) (by decide)⟩

/-- Counterexample to C7 as stated: `sqA` and `rectB` overlap (the point
`(10, 4)` lies on an edge of each, at squared distance 0 from both), yet
the reported squared distance is 16, not 0, because no vertex of either
polygon is near the other's boundary. -/
theorem claim_C7_counterexample :
    pointSegmentDistSq (10, 4) (10, 0) (10, 10) = 0 ∧
    (((10, 0), (10, 10)) : Point × Point) ∈ edges sqA ∧
    pointSegmentDistSq (10, 4) (-5, 4) (15, 4) = 0 ∧
    (((-5, 4), (15, 4)) : Point × Point) ∈ edges rectB ∧
    polygonPolygonDistSq sqA rectB = ((16 : ℚ) : DistSq) ∧
    polygonPolygonDistSq sqA rectB ≠ 0 := by
  refine ⟨?_, ?_, ?_, ?_, ?_, ?_⟩ <;> with_unfolding_all decide

/-- C8: the minimum pairwise distance is `⊤` (infinity) for fewer than two
polygons, is a lower bound of the distance of every unordered pair, and is
attained by some unordered pair whenever at least two polygons are given. -/
theorem claim_C8 :
    ∀ polys : List Polygon,
      (polys.length < 2 → polygonMindist polys = ⊤) ∧
      (∀ i j, i < j → j < polys.length →
        polygonMindist polys ≤
          polygonPolygonDistSq (polys.getD i []) (polys.getD j [])) ∧
      (2 ≤ polys.length → ∃ i j, i < j ∧ j < polys.length ∧
        polygonMindist polys =
          polygonPolygonDistSq (polys.getD i []) (polys.getD j [])) := by
  intro polys
  refine ⟨?_, ?_, ?_⟩
  · intro h
    rw [polygonMindist, pairwiseDists_short h]
    rfl
  · intro i j hij hj
    exact listMin_le_of_mem (mem_pairwiseDists.mpr ⟨i, j, hij, hj, rfl⟩)
  · intro h
    have hx : polygonPolygonDistSq (polys.getD 0 []) (polys.getD 1 []) ∈
        pairwiseDists polys :=
      mem_pairwiseDists.mpr ⟨0, 1, by omega, by omega, rfl⟩
    obtain ⟨i, j, hij, hj, hmin⟩ :=
      mem_pairwiseDists.mp (listMin_mem (List.ne_nil_of_mem hx))
    exact ⟨i, j, hij, hj, hmin⟩

/-- Witness for C8: infinity on a single polygon, and an attained pair on
two squares. -/
theorem claim_C8_witness :
    polygonMindist [usq 0] = ⊤ ∧
    (∃ i j, i < j ∧ j < twoSquares.length ∧
      polygonMindist twoSquares =
        polygonPolygonDistSq (twoSquares.getD i []) (twoSquares.getD j [])) :=
  ⟨(claim_C8 [usq 0]).1 (by decide), (claim_C8 twoSquares).2.2 (by decide)⟩

/-- C9: after `filter_by_ar` (also reached as `update_active_shapes`), the
active shape ids form a strictly increasing (hence duplicate-free) list of
indices into the shape list containing exactly those indices whose centroid
lies inside at least one active region, and the selected shape ids are set
to that same list. -/
theorem claim_C9 :
    ∀ (inside : Point → Polygon → Bool) (shapes regions : List Polygon),
      (filterByAr inside shapes regions).1.Pairwise (· < ·) ∧
      (filterByAr inside shapes regions).1.Nodup ∧
      (∀ i, i ∈ (filterByAr inside shapes regions).1 ↔
        i < shapes.length ∧
          ∃ ar ∈ regions, inside (centroid (shapes.getD i [])) ar = true) ∧
      (filterByAr inside shapes regions).2 =
        (filterByAr inside shapes regions).1 := by
  intro inside shapes regions
  have hp : (filterByAr inside shapes regions).1.Pairwise (· < ·) :=
    (List.pairwise_lt_range shapes.length).filter _
  refine ⟨hp, hp.imp (fun h => ne_of_lt h), ?_, rfl⟩
  intro i
  simp [filterByAr, List.mem_filter, List.mem_range, List.any_eq_true]

/-- Witness for C9: a concrete unit-square region catching the one shape
whose centroid it contains. -/
theorem claim_C9_witness :
    (filterByAr (fun p ar => decide (p ∈ ar)) [[(0, 0)]] []).1.Nodup ∧
    (0 ∈ (filterByAr (fun p ar => decide (p ∈ ar)) [[(0, 0)]] []).1 ↔
      0 < ([[(0, 0)]] : List Polygon).length ∧
        ∃ ar ∈ ([] : List Polygon),
          decide ((centroid (([[(0, 0)]] : List Polygon).getD 0 [])) ∈ ar) = true) :=
  ⟨(claim_C9 (fun p ar => decide (p ∈ ar)) [[(0, 0)]] []).2.1,
   (claim_C9 (fun p ar => decide (p ∈ ar)) [[(0, 0)]] []).2.2.1 0⟩

/-- C10: `set_scores` (which requires exactly the two landmarks it is given)
assigns every shape the score `d1 / (d1 + d2 + 1e-9)`; whenever the distance
function is non-negative, every denominator is strictly positive and every
assigned score lies in `[0, 1)`. -/
theorem claim_C10 :
    ∀ (d : Point → Polygon → ℝ) (lm1 lm2 : Polygon) (shapes : List Polygon),
      (∀ p poly, 0 ≤ d p poly) →
      (setScores d lm1 lm2 shapes = shapes.map fun s =>
          d (centroid s) lm1 /
            (d (centroid s) lm1 + d (centroid s) lm2 + 1 / 1000000000)) ∧
      (∀ s ∈ shapes,
        0 < d (centroid s) lm1 + d (centroid s) lm2 + 1 / 1000000000) ∧
      (∀ x ∈ setScores d lm1 lm2 shapes, 0 ≤ x ∧ x < 1) := by
  intro d lm1 lm2 shapes hd
  have heps : (0 : ℝ) < 1 / 1000000000 := by norm_num
  have hden : ∀ s : Polygon,
      (0 : ℝ) < d (centroid s) lm1 + d (centroid s) lm2 + 1 / 1000000000 := by
    intro s
    have h1 := hd (centroid s) lm1
    have h2 := hd (centroid s) lm2
    linarith
  refine ⟨rfl, fun s _ => hden s, ?_⟩
  intro x hx
  obtain ⟨s, _, rfl⟩ := List.mem_map.mp hx
  constructor
  · exact div_nonneg (hd _ _) (le_of_lt (hden s))
  · rw [div_lt_one (hden s)]
    have h2 := hd (centroid s) lm2
    linarith

/-- Witness for C10: the zero distance function on one shape gives a score
in `[0, 1)`. -/
theorem claim_C10_witness :
    0 ≤ (0 : ℝ) / (0 + 0 + 1 / 1000000000) ∧
    (0 : ℝ) / (0 + 0 + 1 / 1000000000) < 1 :=
  (claim_C10 (fun _ _ => 0) [] [] [[(0, 0)]] (fun _ _ => le_refl 0)).2.2
    ((0 : ℝ) / (0 + 0 + 1 / 1000000000)) (by simp [setScores])

end CellPick
